import Mathlib

/-!
Verification of the combination-matching engine of `mousetrap.jsx`
(nanoscopic/mousetrap).  The JavaScript class `Mousetrap` is shallowly
embedded: its per-instance fields become the `Engine` structure, its static
lookup tables become total functions on `Nat`/`String`, and each method that
the claims touch becomes an executable Lean function translated line by line
from the source.  Machine integers do not occur (all key codes are small
naturals); DOM plumbing (`addEventListener`, `preventDefault`) is outside the
engine and is not modelled.
-/

namespace Mousetrap

/-- The three event kinds (`e.type` strings in the source). -/
inductive Action where
  | keypress
  | keydown
  | keyup
deriving DecidableEq, Repr

/-- The slice of a DOM element that `stopCallback` (src 85-94) consults:
its `className` string and its `contentEditable` string. -/
structure Element where
  className : String
  contentEditable : String
deriving DecidableEq, Repr

/-- The slice of a key event that the engine reads: `e.type`, `e.which`
(already normalised, src 349), the four modifier flags and `e.target`.
Fields the source leaves `undefined` on synthetic events default to
`false`/`0` exactly as JavaScript coerces them. -/
structure KeyEvent where
  type : Action
  which : Nat := 0
  shiftKey : Bool := false
  altKey : Bool := false
  ctrlKey : Bool := false
  metaKey : Bool := false
  target : Element := ⟨"", ""⟩
deriving DecidableEq, Repr

/-- One entry of `_callbacks[character]` (src 468-475).  The JavaScript
callback closure itself is identified by a numeric tag `cb`; `seq` and
`level` are `undefined` (`none`) for plain combo bindings. -/
structure Callback where
  cb : Nat
  modifiers : List String
  action : Action
  seq : Option String := none
  level : Option Nat := none
  combo : String
deriving DecidableEq, Repr

/-- Result of `#getKeyInfo` (src 635-639). -/
structure KeyInfo where
  key : String
  modifiers : List String
  action : Action
deriving DecidableEq, Repr

/-- The per-instance state of a `Mousetrap` object (src 75, 153-175).
JavaScript objects `_callbacks`, `_directMap`, `_sequenceLevels` are
association lists; `_ignoreNextKeyup` is `false` (`none`) or a character
string; `_nextExpectedAction` is `false` (`none`) or an action. -/
structure Engine where
  _callbacks : List (String × List Callback)
  _directMap : List (String × Nat)
  _sequenceLevels : List (String × Nat)
  _nextExpectedAction : Option Action
  _ignoreNextKeyup : Option String
  _ignoreNextKeypress : Bool
  mouseTrapEnabled : Bool
deriving DecidableEq, Repr

/-- A fresh instance: all maps empty, no sequence in progress, enabled. -/
def emptyEngine : Engine :=
  { _callbacks := [], _directMap := [], _sequenceLevels := [],
    _nextExpectedAction := none, _ignoreNextKeyup := none,
    _ignoreNextKeypress := false, mouseTrapEnabled := true }

/-- Replace-or-append update of an association list (the effect of
`obj[key] = value` on a JavaScript object). -/
def upsert (m : List (String × α)) (k : String) (v : α) : List (String × α) :=
  match m with
  | [] => [(k, v)]
  | (k', v') :: t => if k' = k then (k, v) :: t else (k', v') :: upsert t k v

/-- The apostrophe character as a one-character string (value of
`_KEYCODE_MAP[222]`, src 20). -/
def apostropheStr : String := String.singleton (Char.ofNat 39)

/-- The backquote character as a one-character string (value of
`_KEYCODE_MAP[192]`, src 20). -/
def backquoteStr : String := String.singleton (Char.ofNat 96)

/-- `_MAP` (src 9-13) after `staticConstructor` (src 47-60) has added
`f1`..`f19` at codes 112..130 and the numeric-keypad digits at codes
96..105.  The keypad digits are the *strings* `"0"`..`"9"` (src 55-58). -/
def _MAP (code : Nat) : Option String :=
  match code with
  | 8 => some "backspace" | 9 => some "tab" | 13 => some "enter"
  | 16 => some "shift" | 17 => some "ctrl" | 18 => some "alt"
  | 20 => some "capslock" | 27 => some "esc" | 32 => some "space"
  | 33 => some "pageup" | 34 => some "pagedown" | 35 => some "end"
  | 36 => some "home" | 37 => some "left" | 38 => some "up"
  | 39 => some "right" | 40 => some "down" | 45 => some "ins"
  | 46 => some "del" | 91 => some "meta" | 93 => some "meta"
  | 224 => some "meta"
  | _ =>
    if 112 ≤ code ∧ code ≤ 130 then some ("f" ++ toString (code - 111))
    else if 96 ≤ code ∧ code ≤ 105 then some (toString (code - 96))
    else none

/-- `_KEYCODE_MAP` (src 18-21). -/
def _KEYCODE_MAP (code : Nat) : Option String :=
  match code with
  | 106 => some "*" | 107 => some "+" | 109 => some "-" | 110 => some "."
  | 111 => some "/" | 186 => some ";" | 187 => some "=" | 188 => some ","
  | 189 => some "-" | 190 => some "." | 191 => some "/" | 192 => some backquoteStr
  | 219 => some "[" | 220 => some "\\" | 221 => some "]" | 222 => some apostropheStr
  | _ => none

/-- The entries of `_SHIFT_MAP` (src 26-29) in source order. -/
def _SHIFT_MAP_PAIRS : List (String × String) :=
  [("~", backquoteStr), ("!", "1"), ("@", "2"), ("#", "3"), ("$", "4"),
   ("%", "5"), ("^", "6"), ("&", "7"), ("*", "8"), ("(", "9"), (")", "0"),
   ("_", "-"), ("+", "="), (":", ";"), ("\"", apostropheStr), ("<", ","),
   (">", "."), ("?", "/"), ("|", "\\")]

/-- `_SHIFT_MAP` (src 26-29), the object literal as a lookup table. -/
def _SHIFT_MAP (k : String) : Option String := _SHIFT_MAP_PAIRS.lookup k

/-- `_SPECIAL_ALIASES` (src 33-40).  `mod` is platform dependent in the
source (`meta` on Apple platforms, `ctrl` otherwise); we model the
non-Apple branch, and no claim depends on the choice. -/
def _SPECIAL_ALIASES (k : String) : Option String :=
  if k = "option" then some "alt"
  else if k = "command" then some "meta"
  else if k = "return" then some "enter"
  else if k = "escape" then some "esc"
  else if k = "plus" then some "+"
  else if k = "mod" then some "ctrl"
  else none

/-- Membership in `_REVERSE_MAP` (src 568-579): the values of `_MAP`
excluding the entries at codes 96..111 (the numeric keypad digits). -/
def inReverseMap (k : String) : Bool :=
  ["backspace", "tab", "enter", "shift", "ctrl", "alt", "capslock", "esc",
   "space", "pageup", "pagedown", "end", "home", "left", "up", "right",
   "down", "ins", "del", "meta",
   "f1", "f2", "f3", "f4", "f5", "f6", "f7", "f8", "f9", "f10", "f11",
   "f12", "f13", "f14", "f15", "f16", "f17", "f18", "f19"].contains k

/-- `#isModifier` (src 562-564). -/
def isModifier (key : String) : Bool :=
  key == "shift" || key == "ctrl" || key == "alt" || key == "meta"

/-- One pass of the global regex replace `/\+{2}/g → '+plus'` (src 601):
each non-overlapping occurrence of two consecutive plus signs, scanning
left to right, becomes `+plus`. -/
def replacePlusPlus : List Char → List Char
  | [] => []
  | [c] => [c]
  | c :: d :: rest =>
    if c = '+' ∧ d = '+' then
      '+' :: 'p' :: 'l' :: 'u' :: 's' :: replacePlusPlus rest
    else c :: replacePlusPlus (d :: rest)

/-- JavaScript `String.prototype.split` on a single separator character:
empty fields between consecutive separators are kept. -/
def splitOnChar (sep : Char) : List Char → List (List Char)
  | [] => [[]]
  | c :: rest =>
    match splitOnChar sep rest with
    | [] => [[]]
    | t :: ts => if c = sep then [] :: t :: ts else (c :: t) :: ts

/-- `#keysFromString` (src 598-603). -/
def keysFromString (combination : String) : List String :=
  if combination = "+" then ["+"]
  else (splitOnChar '+' (replacePlusPlus combination.toList)).map fun l => String.mk l

/-- The guard `action && action != 'keypress'` of src 623. -/
def shiftActionApplies (action? : Option Action) : Bool :=
  match action? with
  | none => false
  | some a => decide (a ≠ Action.keypress)

/-- One iteration of the key-resolution loop of `#getKeyInfo`
(src 615-630): alias normalisation, shift-equivalence substitution, and
modifier accumulation for a single token `k`. -/
def getKeyInfoToken (action? : Option Action) (k : String) (mods : List String) :
    String × List String :=
  let k1 := (_SPECIAL_ALIASES k).getD k
  let k2 := if shiftActionApplies action? ∧ (_SHIFT_MAP k1).isSome then
              (_SHIFT_MAP k1).getD k1
            else k1
  let mods1 := if shiftActionApplies action? ∧ (_SHIFT_MAP k1).isSome then
                 mods ++ ["shift"]
               else mods
  let mods2 := if isModifier k2 then mods1 ++ [k2] else mods1
  (k2, mods2)

/-- The full loop of `#getKeyInfo` (src 615-630); `key` starts out as the
JavaScript `undefined` (modelled `""`, always overwritten because the
token list is never empty). -/
def getKeyInfoLoop (action? : Option Action) :
    List String → String → List String → String × List String
  | [], key, mods => (key, mods)
  | k :: rest, _, mods =>
    let s := getKeyInfoToken action? k mods
    getKeyInfoLoop action? rest s.1 s.2

/-- `#pickBestAction` (src 585-593). -/
def pickBestAction (key : String) (modifiers : List String)
    (action? : Option Action) : Action :=
  let a := match action? with
    | none => if inReverseMap key then Action.keydown else Action.keypress
    | some a => a
  if a = Action.keypress ∧ modifiers ≠ [] then Action.keydown else a

/-- `#getKeyInfo` (src 609-640). -/
def getKeyInfo (combination : String) (action? : Option Action) : KeyInfo :=
  { key := (getKeyInfoLoop action? (keysFromString combination) "" []).1,
    modifiers := (getKeyInfoLoop action? (keysFromString combination) "" []).2,
    action := pickBestAction
      (getKeyInfoLoop action? (keysFromString combination) "" []).1
      (getKeyInfoLoop action? (keysFromString combination) "" []).2 action? }

/-- `#characterFromEvent` (src 504-526): the produced character for
keypress events (lower-cased unless shift is held), otherwise the special
maps, otherwise the lower-cased character of the code.  `Char.toLower`
matches `toLowerCase` on the ASCII range the engine cares about. -/
def characterFromEvent (e : KeyEvent) : String :=
  if e.type = Action.keypress then
    let ch := Char.ofNat e.which
    if e.shiftKey = false then String.singleton ch.toLower
    else String.singleton ch
  else
    match _MAP e.which with
    | some s => s
    | none =>
      match _KEYCODE_MAP e.which with
      | some s => s
      | none => String.singleton (Char.ofNat e.which).toLower

/-- `#eventModifiers` (src 535-542), in the source's push order. -/
def eventModifiers (e : KeyEvent) : List String :=
  (if e.shiftKey then ["shift"] else []) ++
  (if e.altKey then ["alt"] else []) ++
  (if e.ctrlKey then ["ctrl"] else []) ++
  (if e.metaKey then ["meta"] else [])

/-- Total comparison used to model `Array.prototype.sort()` on the
modifier strings: lexicographic on the character lists. -/
def charListLe : List Char → List Char → Bool
  | [], _ => true
  | _ :: _, [] => false
  | a :: as, b :: bs =>
    if a < b then true else if b < a then false else charListLe as bs

/-- Insert a string into a lexicographically sorted list. -/
def insertSorted (s : String) : List String → List String
  | [] => [s]
  | t :: ts => if charListLe s.toList t.toList then s :: t :: ts
               else t :: insertSorted s ts

/-- Lexicographic insertion sort, the canonical form `sort()` produces. -/
def sortStrings : List String → List String
  | [] => []
  | s :: ts => insertSorted s (sortStrings ts)

/-- `#modifiersMatch` (src 528-530): `sort().join(',')` equality.  No
modifier name contains a comma, so joined-string equality coincides with
equality of the sorted lists. -/
def modifiersMatch (m1 m2 : List String) : Bool :=
  decide (sortStrings m1 = sortStrings m2)

/-- The `_callbacks[character]` list, `[]` when absent (src 210 returns
`[]` early, and src 457 initialises the slot to `[]`). -/
def callbacksAt (st : Engine) (character : String) : List Callback :=
  (st._callbacks.lookup character).getD []

/-- The loop of `#getMatches` (src 216-247) over the callback list.  The
boolean argument models the index skip after `splice(i, 1)` followed by
`++i`: the element that slides into the spliced slot is kept without
being examined.  Returns (list left in `_callbacks[character]`, matches).

Per element the source checks, in order: the sequence-level guard
(src 221), the action guard (src 226), the keypress/modifier test
(src 234), and inside a successful match the rebind-deletion test
(src 239-243). -/
def matchKeep (levels : List (String × Nat)) (e : KeyEvent) (mods : List String)
    (seqName : Option String) (combination : Option String) (level : Option Nat) :
    List Callback → Bool → List Callback × List Callback
  | [], _ => ([], [])
  | c :: rest, skipNext =>
    if skipNext then
      let r := matchKeep levels e mods seqName combination level rest false
      (c :: r.1, r.2)
    else if seqName.isNone && c.seq.isSome &&
            (match c.seq with
             | some s => decide (levels.lookup s ≠ c.level)
             | none => false) then
      let r := matchKeep levels e mods seqName combination level rest false
      (c :: r.1, r.2)
    else if e.type ≠ c.action then
      let r := matchKeep levels e mods seqName combination level rest false
      (c :: r.1, r.2)
    else if (e.type = Action.keypress ∧ e.metaKey = false ∧ e.ctrlKey = false) ∨
            modifiersMatch mods c.modifiers then
      if (seqName = none ∧ combination = some c.combo) ∨
         (seqName.isSome ∧ c.seq = seqName ∧ c.level = level) then
        let r := matchKeep levels e mods seqName combination level rest true
        (r.1, c :: r.2)
      else
        let r := matchKeep levels e mods seqName combination level rest false
        (c :: r.1, c :: r.2)
    else
      let r := matchKeep levels e mods seqName combination level rest false
      (c :: r.1, r.2)

/-- `#getMatches` (src 203-250).  First component: the list left behind in
`_callbacks[character]` (the splices); second: the matches.  The
modifier-keyup substitution is src 213. -/
def getMatches (st : Engine) (character : String) (modifiers : List String)
    (e : KeyEvent) (seqName : Option String) (combination : Option String)
    (level : Option Nat) : List Callback × List Callback :=
  matchKeep st._sequenceLevels e
    (if e.type = Action.keyup ∧ isModifier character then [character]
     else modifiers)
    seqName combination level (callbacksAt st character) false

/-- One step of the `maxLevel` fold of `handleKey` (src 282-284):
`if (callbacks[i].seq) maxLevel = Math.max(maxLevel, callbacks[i].level)`.
Sequence entries always carry a numeric level, hence `getD 0`. -/
def seqLevelMax (m : Nat) (c : Callback) : Nat :=
  if c.seq.isSome then max m (c.level.getD 0) else m

/-- The `maxLevel` computation of `handleKey` (src 278-284). -/
def maxSeqLevel (cs : List Callback) : Nat :=
  cs.foldl seqLevelMax 0

/-- The firing loop of `handleKey` (src 287-313).  The boolean is
`processedSequenceCallback`; the result lists the callbacks handed to
`_fireCallback`, in order. -/
def fireLoop (maxLevel : Nat) : List Callback → Bool → List Callback
  | [], _ => []
  | c :: rest, processed =>
    if c.seq.isSome then
      if c.level.getD 0 = maxLevel then c :: fireLoop maxLevel rest true
      else fireLoop maxLevel rest processed
    else if processed then fireLoop maxLevel rest processed
    else c :: fireLoop maxLevel rest processed

/-- The callbacks `handleKey` fires for a given match list (src 274-313):
the tie-break and plain-fallback selection applied to the output of
`#getMatches`. -/
def firedCallbacks (cs : List Callback) : List Callback :=
  fireLoop (maxSeqLevel cs) cs false

/-- `handleKey` (src 274-313) restricted to its observable firing
behaviour: which callbacks reach `_fireCallback` for a dispatched
character/modifiers/event triple. -/
def handleKey (st : Engine) (character : String) (modifiers : List String)
    (e : KeyEvent) : List Callback :=
  firedCallbacks (getMatches st character modifiers e none none none).2

/-- `stopCallback`'s class-marker test (src 89): whether
`' ' + className + ' '` contains the substring `' mousetrap '`. -/
def leadsWith : List Char → List Char → Bool
  | [], _ => true
  | _ :: _, [] => false
  | a :: as, b :: bs => a == b && leadsWith as bs

/-- Substring occurrence on character lists (JavaScript
`indexOf(needle) > -1`). -/
def containsRun (needle : List Char) : List Char → Bool
  | [] => needle.isEmpty
  | c :: rest => leadsWith needle (c :: rest) || containsRun needle rest

/-- The `indexOf(' mousetrap ')` test of src 89. -/
def hasMousetrapClass (className : String) : Bool :=
  containsRun " mousetrap ".toList (" " ++ className ++ " ").toList

/-- `stopCallback` (src 85-94): suppression while disabled takes
precedence, then the `mousetrap` class opt-out, then content-editable
(`element.contentEditable && element.contentEditable == 'true'`). -/
def stopCallback (st : Engine) (el : Element) : Bool :=
  if st.mouseTrapEnabled = false then true
  else if hasMousetrapClass el.className then false
  else decide (el.contentEditable = "true")

/-- `pause` (src 77-79). -/
def pause (st : Engine) : Engine := { st with mouseTrapEnabled := false }

/-- `unpause` (src 81-83). -/
def unpause (st : Engine) : Engine := { st with mouseTrapEnabled := true }

/-- `reset` (src 138-142): it reassigns `_callbacks` and `_directMap`
and touches nothing else. -/
def reset (st : Engine) : Engine :=
  { st with _callbacks := [], _directMap := [] }

/-- The string JavaScript builds for `combination + ':' + action`
(src 129, 439); an `undefined` action concatenates as `"undefined"`. -/
def actionKeySuffix (action? : Option Action) : String :=
  match action? with
  | some Action.keypress => "keypress"
  | some Action.keydown => "keydown"
  | some Action.keyup => "keyup"
  | none => "undefined"

/-- `trigger` (src 128-133): the direct-indexed callback that would be
invoked, `none` when the slot is empty. -/
def trigger (st : Engine) (keys : String) (action? : Option Action) : Option Nat :=
  st._directMap.lookup (keys ++ ":" ++ actionKeySuffix action?)

/-- The synthetic `{type: info.action}` event of src 460: every flag is
`undefined`, i.e. falsy. -/
def mkTypeEvent (a : Action) : KeyEvent := { type := a }

/-- `_bindSingle` (src 437-476) on the single-combination path
(`sequence.length === 1`, so the `#bindSequence` branch of src 448-451 is
not taken; a space-free combination is its own whitespace collapse):
store the direct-map reference, delete a previous binding with the same
identity through `#getMatches` (src 460), and insert the new entry at the
front for sequence bindings, at the back otherwise (src 468). -/
def _bindSingle (st : Engine) (combination : String) (cbId : Nat)
    (action? : Option Action) (sequenceName : Option String)
    (level : Option Nat) : Engine :=
  let st1 := { st with
    _directMap := upsert st._directMap
      (combination ++ ":" ++ actionKeySuffix action?) cbId }
  let info := getKeyInfo combination action?
  let kept := (getMatches st1 info.key info.modifiers (mkTypeEvent info.action)
    sequenceName (some combination) level).1
  let entry : Callback :=
    { cb := cbId, modifiers := info.modifiers, action := info.action,
      seq := sequenceName, level := level, combo := combination }
  let slot := if sequenceName.isSome then entry :: kept else kept ++ [entry]
  { st1 with _callbacks := upsert st1._callbacks info.key slot }

/-- `#handleKeyEvent` (src 346-363) up to the hand-off to `handleKey`:
the post-gate engine state, plus `none` when the event is dropped, or the
character/modifier pair passed on.  The `===` of src 357 is the
`Option String` equality: `false` (`none`) never equals a character. -/
def handleKeyEvent (st : Engine) (e : KeyEvent) :
    Engine × Option (String × List String) :=
  let character := characterFromEvent e
  if character = "" then (st, none)
  else if e.type = Action.keyup ∧ st._ignoreNextKeyup = some character then
    ({ st with _ignoreNextKeyup := none }, none)
  else (st, some (character, eventModifiers e))

/-- Full dispatch of a raw event: `#handleKeyEvent` followed by
`handleKey`; the callbacks that reach `_fireCallback`. -/
def dispatchFired (st : Engine) (e : KeyEvent) : List Callback :=
  match handleKeyEvent st e with
  | (_, none) => []
  | (st', some (ch, mods)) => handleKey st' ch mods e

/-- Dispatch composed with the `stopCallback` guard of `_fireCallback`
(src 258-268): the user callbacks actually invoked.  `_fireCallback`
evaluates `stopCallback` once per fired callback with the same event
target, so the per-callback guard collapses to one list-level guard. -/
def dispatchInvoked (st : Engine) (e : KeyEvent) : List Callback :=
  if stopCallback st e.target then [] else dispatchFired st e

/-- The public (non-`#`) properties a `Mousetrap` instance exposes, i.e.
everything `self.<name>` can resolve: the instance fields of src 62-75 and
153-175 and the public methods of the class body. -/
def mousetrapInstanceMembers : List String :=
  ["targetElement", "target", "mouseTrapEnabled", "pause", "unpause",
   "stopCallback", "bind", "unbind", "trigger", "reset", "_callbacks",
   "_directMap", "_sequenceLevels", "_resetTimer", "_ignoreNextKeyup",
   "_ignoreNextKeypress", "_nextExpectedAction", "handleKey",
   "_fireCallback", "_bindSingle", "_bindMultiple"]

/-- The closure `_increaseSequence(nextAction)` returns (src 390-396),
run on a match of a non-final sequence key: set `_nextExpectedAction`,
increment `_sequenceLevels[combo]`, then call
`self._resetSequenceTimer()`.  That property lookup resolves against the
instance's public members; the timer method was declared as the *private*
`#resetSequenceTimer` (src 369), so `self._resetSequenceTimer` is
`undefined` and the call raises a TypeError — after the two mutations
have already happened.  The second component is the thrown error. -/
def _increaseSequence (combo : String) (nextAction : Action) (st : Engine) :
    Engine × Option String :=
  let st' := { st with
    _nextExpectedAction := some nextAction,
    _sequenceLevels := upsert st._sequenceLevels combo
      (((st._sequenceLevels.lookup combo).getD 0) + 1) }
  if mousetrapInstanceMembers.contains "_resetSequenceTimer" then
    (st', none)
  else
    (st', some "TypeError: self._resetSequenceTimer is not a function")

/-! Concrete states and events used to evaluate the definitions. -/

/-- An engine mid-sequence: `g i` has advanced to level 1 and a keydown is
expected next (the state reached after the first key of a bound `g i`
sequence matched). -/
def seqDemoState : Engine :=
  { emptyEngine with _sequenceLevels := [("g i", 1)],
                     _nextExpectedAction := some Action.keydown }

/-- An engine in which `#bindSequence` has just registered `g i`
(src 382 sets the level to 0). -/
def gIBoundState : Engine :=
  { emptyEngine with _sequenceLevels := [("g i", 0)] }

/-- A keyup binding for the character `"0"`. -/
def numpadZeroBinding : Callback :=
  { cb := 7, modifiers := [], action := Action.keyup, combo := "0" }

/-- An engine with only the `"0"` keyup binding registered. -/
def numpadZeroState : Engine :=
  { emptyEngine with _callbacks := [("0", [numpadZeroBinding])] }

/-- A keyup of numeric-keypad digit 0 (key code 96), no modifiers. -/
def numpadZeroKeyup : KeyEvent := { type := Action.keyup, which := 96 }

/-- Sequence-type matches for one event: `g i` at level 1 and `i t` at
level 0 both continue on the key `i`. -/
def c1SeqMatches : List Callback :=
  [{ cb := 1, modifiers := [], action := Action.keydown, seq := some "g i",
     level := some 1, combo := "i" },
   { cb := 2, modifiers := [], action := Action.keydown, seq := some "i t",
     level := some 0, combo := "i" }]

/-- A plain binding for the same key `i`, matching the same event. -/
def c1PlainMatches : List Callback :=
  [{ cb := 3, modifiers := [], action := Action.keydown, seq := none,
     level := none, combo := "i" }]

/-- An engine with a single plain keydown binding for `x`. -/
def c5DemoState : Engine :=
  { emptyEngine with
    _callbacks := [("x", [{ cb := 9, modifiers := [], action := Action.keydown,
                            combo := "x" }])] }

/-- The binding registered in `c5DemoState`. -/
def c5DemoCallback : Callback :=
  { cb := 9, modifiers := [], action := Action.keydown, combo := "x" }

/-- A keydown of the key `X` with no modifier flags. -/
def c5DemoEvent : KeyEvent := { type := Action.keydown, which := 88 }

/-- An engine whose `_ignoreNextKeyup` flag holds the character `x`. -/
def suppressDemoState : Engine :=
  { emptyEngine with _ignoreNextKeyup := some "x" }

/-- A keyup of the key `X` (key code 88), which resolves to character
`x`. -/
def suppressDemoEvent : KeyEvent := { type := Action.keyup, which := 88 }

/-- An element with a non-`mousetrap` class that is content-editable. -/
def demoElement : Element := { className := "editor", contentEditable := "true" }

end Mousetrap

namespace Mousetrap

/-! ## C10: the bare `"+"` combination -/

/-- C10: parsing the one-character combination string `"+"` keeps the plus
sign as the trigger key (src 599 returns `['+']` before the separator
split), yielding key `"+"`, no modifiers, and the inferred keypress
action — not an empty key. -/
theorem c10_bare_plus :
    keysFromString "+" = ["+"] ∧
    getKeyInfo "+" none =
      { key := "+", modifiers := [], action := Action.keypress } := by
  constructor <;> rfl

/-! ## C2: advancing a sequence -/

/-- C2: the advance callback built by `_increaseSequence` (src 390-396)
does set `_nextExpectedAction` and increment the sequence level, but the
subsequent `self._resetSequenceTimer()` call cannot restart any timer:
the instance has no public `_resetSequenceTimer` member (the method was
declared as the private `#resetSequenceTimer`, src 369), so the lookup
yields `undefined` and the call throws a TypeError.  Evaluated at the
state right after binding `g i`, on the first key's match. -/
theorem c2_sequence_advance_throws :
    mousetrapInstanceMembers.contains "_resetSequenceTimer" = false ∧
    (_increaseSequence "g i" Action.keydown gIBoundState).1._sequenceLevels.lookup "g i"
      = some 1 ∧
    (_increaseSequence "g i" Action.keydown gIBoundState).1._nextExpectedAction
      = some Action.keydown ∧
    (_increaseSequence "g i" Action.keydown gIBoundState).2
      = some "TypeError: self._resetSequenceTimer is not a function" := by
  refine ⟨rfl, rfl, rfl, rfl⟩

/-! ## C3: `reset()` -/

/-- C3 counterexample: `reset` (src 138-142) reassigns only `_callbacks`
and `_directMap`; in a state where sequence `g i` sits at level 1 with a
pending expected action, both survive a `reset()`, contradicting the
claim that every sequence level is 0 and no next action is expected. -/
theorem c3_reset_keeps_sequence_state :
    (reset seqDemoState)._sequenceLevels.lookup "g i" ≠ some 0 ∧
    (reset seqDemoState)._nextExpectedAction ≠ none := by
  refine ⟨by decide, by decide⟩

/-- C3 amended: after `reset()` the engine holds no bindings — every
subsequent dispatch reaches no callback and every `trigger` finds
nothing — while `_sequenceLevels` and `_nextExpectedAction` are left
exactly as they were. -/
theorem c3_reset_clears_bindings (st : Engine) :
    (reset st)._callbacks = [] ∧
    (reset st)._directMap = [] ∧
    (reset st)._sequenceLevels = st._sequenceLevels ∧
    (reset st)._nextExpectedAction = st._nextExpectedAction ∧
    (∀ ch mods e, handleKey (reset st) ch mods e = []) ∧
    (∀ keys a, trigger (reset st) keys a = none) := by
  refine ⟨rfl, rfl, rfl, rfl, ?_, ?_⟩
  · intro ch mods e
    simp [handleKey, getMatches, callbacksAt, reset, matchKeep, firedCallbacks,
      maxSeqLevel, fireLoop]
  · intro keys a
    simp [trigger, reset]

/-- C3 witness: the amended theorem evaluated at the mid-sequence demo
state. -/
theorem c3_reset_clears_bindings_works :
    (reset seqDemoState)._callbacks = [] :=
  (c3_reset_clears_bindings seqDemoState).1

/-! ## C6 and C4 counterexamples -/

/-- C6 counterexample: the combination `"a+"` ends in an empty token, and
`#getKeyInfo` (src 609-640) passes it through, producing an *empty*
canonical key — the claimed invariant `canonicalKey` is never empty
fails. -/
theorem c6_empty_key_token : (getKeyInfo "a+" none).key = "" := rfl

/-- C4 counterexample: rebinding `("ctrl+shift", keyup)` does not remove
the prior binding.  The deletion pass (src 460) runs `#getMatches` with a
synthetic keyup event; src 213 replaces the modifier list with just the
trigger key `shift`, so `#modifiersMatch (['shift'], ['ctrl','shift'])`
fails and the old entry survives: afterwards *two* bindings with the
identity `("ctrl+shift", keyup)` exist, not exactly one. -/
theorem c4_rebind_keyup_modifier_corner :
    (callbacksAt
      (_bindSingle (_bindSingle emptyEngine "ctrl+shift" 1 (some Action.keyup)
        none none) "ctrl+shift" 2 (some Action.keyup) none none)
      "shift").countP
      (fun c => decide (c.combo = "ctrl+shift" ∧ c.action = Action.keyup)) = 2 := by
  rfl

/-! ## C1: the sequence tie-break of `handleKey` -/

/-- Plain entries never touch the `maxLevel` fold. -/
theorem maxFold_plain (ps : List Callback) :
    ∀ acc, (∀ c ∈ ps, c.seq = none) → ps.foldl seqLevelMax acc = acc := by
  induction ps with
  | nil => intro acc _; rfl
  | cons c t ih =>
    intro acc h
    have hc : c.seq = none := h c (by simp)
    have ht : ∀ x ∈ t, x.seq = none := fun x hx => h x (by simp [hx])
    simp [seqLevelMax, hc, ih acc ht]

/-- Appending plain entries does not change the maximum sequence level. -/
theorem maxSeqLevel_append_plain (ss ps : List Callback)
    (hps : ∀ c ∈ ps, c.seq = none) :
    maxSeqLevel (ss ++ ps) = maxSeqLevel ss := by
  unfold maxSeqLevel
  rw [List.foldl_append]
  exact maxFold_plain ps _ hps

/-- The fold's accumulator never decreases. -/
theorem maxFold_acc_le (l : List Callback) :
    ∀ acc, acc ≤ l.foldl seqLevelMax acc := by
  induction l with
  | nil => intro acc; exact Nat.le_refl acc
  | cons c t ih =>
    intro acc
    refine Nat.le_trans ?_ (ih (seqLevelMax acc c))
    unfold seqLevelMax
    split
    · exact Nat.le_max_left _ _
    · exact Nat.le_refl acc

/-- Every sequence entry's level is bounded by the fold's result. -/
theorem maxFold_ge (l : List Callback) :
    ∀ acc (c : Callback), c ∈ l → c.seq.isSome = true →
      c.level.getD 0 ≤ l.foldl seqLevelMax acc := by
  induction l with
  | nil => intro _ c hc _; cases hc
  | cons d t ih =>
    intro acc c hc hseq
    rcases List.mem_cons.mp hc with rfl | hct
    · refine Nat.le_trans ?_ (maxFold_acc_le t (seqLevelMax acc c))
      simp [seqLevelMax, hseq]
    · exact ih (seqLevelMax acc d) c hct hseq

/-- The fold's result is the accumulator or one of the levels. -/
theorem maxFold_attained (l : List Callback) :
    ∀ acc, (∀ c ∈ l, c.seq.isSome = true) →
      l.foldl seqLevelMax acc = acc ∨
      ∃ c ∈ l, l.foldl seqLevelMax acc = c.level.getD 0 := by
  induction l with
  | nil => intro acc _; exact Or.inl rfl
  | cons c t ih =>
    intro acc hl
    have hc : c.seq.isSome = true := hl c (by simp)
    have ht : ∀ x ∈ t, x.seq.isSome = true := fun x hx => hl x (by simp [hx])
    have hstep : seqLevelMax acc c = max acc (c.level.getD 0) := by
      simp [seqLevelMax, hc]
    have hfold : (c :: t).foldl seqLevelMax acc
        = t.foldl seqLevelMax (max acc (c.level.getD 0)) := by
      simp [List.foldl_cons, hstep]
    rcases ih (max acc (c.level.getD 0)) ht with heq | ⟨c', hc', heq⟩
    · rcases Nat.le_total (c.level.getD 0) acc with hle | hle
      · exact Or.inl (by rw [hfold, heq, Nat.max_eq_left hle])
      · exact Or.inr ⟨c, by simp, by rw [hfold, heq, Nat.max_eq_right hle]⟩
    · exact Or.inr ⟨c', by simp [hc'], by rw [hfold, heq]⟩

/-- A nonempty all-sequence match list attains its maximum level. -/
theorem maxSeqLevel_attained (ss : List Callback)
    (hss : ∀ c ∈ ss, c.seq.isSome = true) (hne : ss ≠ []) :
    ∃ c ∈ ss, c.level.getD 0 = maxSeqLevel ss := by
  rcases maxFold_attained ss 0 hss with h0 | ⟨c, hc, heq⟩
  · cases ss with
    | nil => exact absurd rfl hne
    | cons c0 t =>
      refine ⟨c0, by simp, ?_⟩
      have hle := maxFold_ge (c0 :: t) 0 c0 (by simp) (hss c0 (by simp))
      have h0' : maxSeqLevel (c0 :: t) = 0 := h0
      unfold maxSeqLevel
      omega
  · exact ⟨c, hc, heq.symm⟩

/-- On a run of plain (non-sequence) entries the firing loop fires all of
them when no sequence callback fired and none otherwise. -/
theorem fireLoop_all_plain (m : Nat) (ps : List Callback) :
    ∀ b, (∀ c ∈ ps, c.seq = none) → fireLoop m ps b = if b then [] else ps := by
  induction ps with
  | nil => intro b _; cases b <;> rfl
  | cons c t ih =>
    intro b h
    have hc : c.seq = none := h c (by simp)
    have ht : ∀ x ∈ t, x.seq = none := fun x hx => h x (by simp [hx])
    cases b <;> simp [fireLoop, hc, ih _ ht]

/-- On a leading run of sequence entries the firing loop fires exactly
the entries at level `m` and raises the flag iff one of them was at
level `m`. -/
theorem fireLoop_seq_front (m : Nat) (ss : List Callback) :
    ∀ (ps : List Callback) (b : Bool), (∀ c ∈ ss, c.seq.isSome = true) →
      fireLoop m (ss ++ ps) b
        = ss.filter (fun c => decide (c.level.getD 0 = m))
          ++ fireLoop m ps (b || ss.any fun c => decide (c.level.getD 0 = m)) := by
  induction ss with
  | nil => intro ps b _; simp
  | cons c t ih =>
    intro ps b hss
    have hc : c.seq.isSome = true := hss c (by simp)
    have ht : ∀ x ∈ t, x.seq.isSome = true := fun x hx => hss x (by simp [hx])
    by_cases hl : c.level.getD 0 = m
    · simp [fireLoop, hc, hl, ih ps true ht]
    · simp [fireLoop, hc, hl, ih ps b ht]

/-- C1: on every dispatch, among the matching sequence-type bindings
exactly those at the maximum level fire, and the matching plain bindings
fire iff no sequence-type binding fired.  The match list reaching
`handleKey`'s firing loop (src 287-313) always lists sequence entries
before plain ones, because `_bindSingle` unshifts sequence bindings and
pushes plain ones (src 468) and `#getMatches` filters in order; the
hypotheses state that shape.  The equation says: if any sequence binding
matched (`ss ≠ []`) the fired list is precisely the sequence matches at
the maximum level and no plain binding fires; otherwise all plain matches
fire.  The second conjunct adds that some sequence binding does fire
whenever one matched. -/
theorem c1_sequence_tiebreak (ss ps : List Callback)
    (hss : ∀ c ∈ ss, c.seq.isSome = true) (hps : ∀ c ∈ ps, c.seq = none) :
    firedCallbacks (ss ++ ps)
      = ss.filter (fun c => decide (c.level.getD 0 = maxSeqLevel (ss ++ ps)))
        ++ (if ss.isEmpty then ps else []) ∧
    (ss ≠ [] → ∃ c ∈ ss, c.level.getD 0 = maxSeqLevel (ss ++ ps) ∧
       c ∈ firedCallbacks (ss ++ ps)) := by
  have hmax : maxSeqLevel (ss ++ ps) = maxSeqLevel ss :=
    maxSeqLevel_append_plain ss ps hps
  have hfired : firedCallbacks (ss ++ ps)
      = ss.filter (fun c => decide (c.level.getD 0 = maxSeqLevel (ss ++ ps)))
        ++ (if ss.isEmpty then ps else []) := by
    unfold firedCallbacks
    rw [hmax, fireLoop_seq_front (maxSeqLevel ss) ss ps false hss]
    by_cases hne : ss = []
    · subst hne
      simp [fireLoop_all_plain (maxSeqLevel ([] : List Callback)) ps false hps]
    · obtain ⟨c, hc, hlev⟩ := maxSeqLevel_attained ss hss hne
      have hany : (ss.any fun c => decide (c.level.getD 0 = maxSeqLevel ss)) = true :=
        List.any_eq_true.mpr ⟨c, hc, by simp [hlev]⟩
      rw [hany]
      simp [fireLoop_all_plain (maxSeqLevel ss) ps true hps, hne]
  refine ⟨hfired, ?_⟩
  intro hne
  obtain ⟨c, hc, hlev⟩ := maxSeqLevel_attained ss hss hne
  refine ⟨c, hc, by rw [hmax]; exact hlev, ?_⟩
  rw [hfired]
  exact List.mem_append_left _ (List.mem_filter.mpr ⟨hc, by simp [hmax, hlev]⟩)

/-- C1 witness: two in-progress sequences (`g i` at level 1, `i t` at
level 0) and one plain binding all match the key `i`; only the level-1
sequence entry fires. -/
theorem c1_sequence_tiebreak_works :
    firedCallbacks (c1SeqMatches ++ c1PlainMatches)
      = c1SeqMatches.filter
          (fun c => decide (c.level.getD 0 = maxSeqLevel (c1SeqMatches ++ c1PlainMatches)))
        ++ (if c1SeqMatches.isEmpty then c1PlainMatches else []) :=
  (c1_sequence_tiebreak c1SeqMatches c1PlainMatches (by decide) (by decide)).1

/-! ## C5: necessary conditions for a match -/

/-- Every callback collected by the `#getMatches` loop passed the action
guard (src 226) and the keypress-shortcut-or-modifiers test (src 234). -/
theorem matchKeep_matches_sound (levels : List (String × Nat)) (e : KeyEvent)
    (mods : List String) (sn comb : Option String) (lvl : Option Nat) :
    ∀ (l : List Callback) (b : Bool) (c : Callback),
      c ∈ (matchKeep levels e mods sn comb lvl l b).2 →
      e.type = c.action ∧
      ((e.type = Action.keypress ∧ e.metaKey = false ∧ e.ctrlKey = false) ∨
        modifiersMatch mods c.modifiers = true) := by
  intro l
  induction l with
  | nil => intro b c hc; simp [matchKeep] at hc
  | cons d rest ih =>
    intro b c hc
    cases b with
    | true =>
      exact ih false c (by simpa [matchKeep] using hc)
    | false =>
      simp only [matchKeep] at hc
      rw [if_neg Bool.false_ne_true] at hc
      by_cases h1 : (sn.isNone && d.seq.isSome &&
          (match d.seq with
           | some s => decide (levels.lookup s ≠ d.level)
           | none => false)) = true
      · rw [if_pos h1] at hc
        exact ih false c (by simpa using hc)
      · rw [if_neg h1] at hc
        by_cases h2 : e.type ≠ d.action
        · rw [if_pos h2] at hc
          exact ih false c (by simpa using hc)
        · rw [if_neg h2] at hc
          by_cases h3 : (e.type = Action.keypress ∧ e.metaKey = false ∧
              e.ctrlKey = false) ∨ modifiersMatch mods d.modifiers = true
          · rw [if_pos h3] at hc
            by_cases h4 : (sn = none ∧ comb = some d.combo) ∨
                (sn.isSome ∧ d.seq = sn ∧ d.level = lvl)
            · rw [if_pos h4] at hc
              rcases List.mem_cons.mp (by simpa using hc) with rfl | hct
              · exact ⟨not_not.mp h2, h3⟩
              · exact ih true c hct
            · rw [if_neg h4] at hc
              rcases List.mem_cons.mp (by simpa using hc) with rfl | hct
              · exact ⟨not_not.mp h2, h3⟩
              · exact ih false c hct
          · rw [if_neg h3] at hc
            exact ih false c (by simpa using hc)

/-- C5: a binding matches a dispatched event only if its action equals
the event's action kind and — unless the event is a keypress with neither
ctrl nor meta held, in which case the modifier comparison is skipped
(src 234) — its modifier list equals, up to order, the event's effective
modifier set (the dispatched modifiers, replaced by just the pressed key
for a modifier-key keyup, src 213). -/
theorem c5_match_necessary (st : Engine) (character : String)
    (modifiers : List String) (e : KeyEvent) (c : Callback)
    (hmem : c ∈ (getMatches st character modifiers e none none none).2) :
    c.action = e.type ∧
    ((e.type = Action.keypress ∧ e.metaKey = false ∧ e.ctrlKey = false) ∨
      sortStrings c.modifiers =
        sortStrings (if e.type = Action.keyup ∧ isModifier character
                     then [character] else modifiers)) := by
  unfold getMatches at hmem
  have h := matchKeep_matches_sound st._sequenceLevels e
    (if e.type = Action.keyup ∧ isModifier character then [character]
     else modifiers) none none none (callbacksAt st character) false c hmem
  refine ⟨h.1.symm, ?_⟩
  rcases h.2 with hk | hm
  · exact Or.inl hk
  · exact Or.inr (of_decide_eq_true hm).symm

/-- C5 witness: the keydown binding for `x` matches a plain keydown of
`x`; its action equals the event kind and its (empty) modifier list
equals the event's. -/
theorem c5_match_necessary_works :
    c5DemoCallback.action = c5DemoEvent.type ∧
    ((c5DemoEvent.type = Action.keypress ∧ c5DemoEvent.metaKey = false ∧
        c5DemoEvent.ctrlKey = false) ∨
      sortStrings c5DemoCallback.modifiers =
        sortStrings (if c5DemoEvent.type = Action.keyup ∧ isModifier "x"
                     then ["x"] else [])) :=
  c5_match_necessary c5DemoState "x" [] c5DemoEvent c5DemoCallback (by decide)

/-! ## C4: rebinding replaces the prior binding -/

/-- In a rebind-deletion pass (`sequenceName` absent, `combination`
supplied), an entry with a different combo label is always kept. -/
theorem matchKeep_cons_keep (levels : List (String × Nat)) (e : KeyEvent)
    (mods : List String) (combo : String) (lvl : Option Nat) (d : Callback)
    (hd : d.combo ≠ combo) (X : List Callback) :
    (matchKeep levels e mods none (some combo) lvl (d :: X) false).1
      = d :: (matchKeep levels e mods none (some combo) lvl X false).1 := by
  simp only [matchKeep]
  rw [if_neg Bool.false_ne_true]
  by_cases h1 : ((none : Option String).isNone && d.seq.isSome &&
      (match d.seq with
       | some s => decide (levels.lookup s ≠ d.level)
       | none => false)) = true
  · rw [if_pos h1]
  · rw [if_neg h1]
    by_cases h2 : e.type ≠ d.action
    · rw [if_pos h2]
    · rw [if_neg h2]
      by_cases h3 : (e.type = Action.keypress ∧ e.metaKey = false ∧
          e.ctrlKey = false) ∨ modifiersMatch mods d.modifiers = true
      · rw [if_pos h3]
        split_ifs with h4
        · exfalso
          rcases h4 with ⟨-, h⟩ | ⟨h, -⟩
          · exact hd (by injection h with h; exact h.symm)
          · simp at h
        · rfl
      · rw [if_neg h3]

/-- A rebind-deletion pass over entries none of which carry the target
combo label leaves the list untouched. -/
theorem matchKeep_keeps_nonmatching (levels : List (String × Nat)) (e : KeyEvent)
    (mods : List String) (combo : String) (lvl : Option Nat) :
    ∀ l : List Callback, (∀ c ∈ l, c.combo ≠ combo) →
      (matchKeep levels e mods none (some combo) lvl l false).1 = l := by
  intro l
  induction l with
  | nil => intro _; rfl
  | cons d t ih =>
    intro h
    rw [matchKeep_cons_keep levels e mods combo lvl d (h d (by simp)) t]
    rw [ih fun c hc => h c (by simp [hc])]

/-- A rebind-deletion pass removes a trailing entry whose combo label,
action and modifiers match (src 239-243), leaving the preceding
unrelated entries in place. -/
theorem matchKeep_removes_last (levels : List (String × Nat)) (e : KeyEvent)
    (mods : List String) (combo : String) (lvl : Option Nat) (e1 : Callback)
    (hseq : e1.seq = none) (hcombo : e1.combo = combo)
    (hact : e.type = e1.action)
    (hmatch : (e.type = Action.keypress ∧ e.metaKey = false ∧
        e.ctrlKey = false) ∨ modifiersMatch mods e1.modifiers = true) :
    ∀ l : List Callback, (∀ c ∈ l, c.combo ≠ combo) →
      (matchKeep levels e mods none (some combo) lvl (l ++ [e1]) false).1 = l := by
  intro l
  induction l with
  | nil =>
    intro _
    simp only [List.nil_append, matchKeep]
    rw [if_neg Bool.false_ne_true]
    rw [if_neg (show ¬(((none : Option String).isNone && e1.seq.isSome &&
        (match e1.seq with
         | some s => decide (levels.lookup s ≠ e1.level)
         | none => false)) = true) by simp [hseq])]
    rw [if_neg (fun h => h hact)]
    rw [if_pos hmatch]
    split_ifs with h4
    · rfl
    · exact absurd (Or.inl ⟨by trivial, by rw [hcombo]⟩) h4
  | cons d t ih =>
    intro h
    rw [List.cons_append,
      matchKeep_cons_keep levels e mods combo lvl d (h d (by simp)) (t ++ [e1])]
    rw [ih fun c hc => h c (by simp [hc])]

/-- The `_callbacks` table after a plain `_bindSingle` (src 437-476):
the slot of the resolved key gets whatever the deletion pass left plus
the new entry at the back. -/
theorem bindSingle_plain_callbacks (st : Engine) (combination : String)
    (cbId : Nat) (action? : Option Action) :
    (_bindSingle st combination cbId action? none none)._callbacks
      = upsert st._callbacks (getKeyInfo combination action?).key
          ((getMatches st (getKeyInfo combination action?).key
              (getKeyInfo combination action?).modifiers
              (mkTypeEvent (getKeyInfo combination action?).action)
              none (some combination) none).1
            ++ [{ cb := cbId,
                  modifiers := (getKeyInfo combination action?).modifiers,
                  action := (getKeyInfo combination action?).action,
                  seq := none, level := none, combo := combination }]) := rfl

/-- The `_directMap` after `_bindSingle` (src 439). -/
theorem bindSingle_directMap (st : Engine) (combination : String) (cbId : Nat)
    (action? : Option Action) (sn : Option String) (lvl : Option Nat) :
    (_bindSingle st combination cbId action? sn lvl)._directMap
      = upsert st._directMap (combination ++ ":" ++ actionKeySuffix action?)
          cbId := rfl

/-- Updating a key of an association list makes its lookup the new
value. -/
theorem lookup_upsert_self (m : List (String × α)) (k : String) (v : α) :
    (upsert m k v).lookup k = some v := by
  induction m with
  | nil => simp [upsert, List.lookup]
  | cons p t ih =>
    obtain ⟨k', v'⟩ := p
    by_cases h : k' = k
    · subst h
      simp [upsert, List.lookup]
    · simp only [upsert, if_neg h, List.lookup]
      rw [show (k == k') = false from beq_eq_false_iff_ne.mpr (Ne.symm h)]
      exact ih

/-- C4 amended: rebinding a `(comboLabel, action)` pair removes the prior
binding and leaves exactly one entry with that identity — the new one —
provided the deletion pass can recognise the old entry, i.e. unless the
resolved action is `keyup` for a trigger key that is itself a modifier
bound together with other modifiers (in that corner src 213 substitutes
`[key]` for the modifier list and the old entry survives, see the
counterexample).  Triggering always resolves to the new callback only. -/
theorem c4_rebind_replaces (st : Engine) (combination : String) (cb1 cb2 : Nat)
    (action? : Option Action)
    (hfresh : ∀ c ∈ callbacksAt st (getKeyInfo combination action?).key,
        c.combo ≠ combination)
    (hdel : (getKeyInfo combination action?).action = Action.keypress ∨
        modifiersMatch
          (if (getKeyInfo combination action?).action = Action.keyup ∧
              isModifier (getKeyInfo combination action?).key
           then [(getKeyInfo combination action?).key]
           else (getKeyInfo combination action?).modifiers)
          (getKeyInfo combination action?).modifiers = true) :
    (callbacksAt
        (_bindSingle (_bindSingle st combination cb1 action? none none)
          combination cb2 action? none none)
        (getKeyInfo combination action?).key).filter
        (fun c => decide (c.combo = combination ∧
            c.action = (getKeyInfo combination action?).action))
      = [{ cb := cb2, modifiers := (getKeyInfo combination action?).modifiers,
           action := (getKeyInfo combination action?).action, seq := none,
           level := none, combo := combination }] ∧
    trigger (_bindSingle (_bindSingle st combination cb1 action? none none)
        combination cb2 action? none none) combination action? = some cb2 := by
  have hmatch1 : ((mkTypeEvent (getKeyInfo combination action?).action).type
        = Action.keypress ∧
      (mkTypeEvent (getKeyInfo combination action?).action).metaKey = false ∧
      (mkTypeEvent (getKeyInfo combination action?).action).ctrlKey = false) ∨
      modifiersMatch
        (if (mkTypeEvent (getKeyInfo combination action?).action).type
              = Action.keyup ∧
            isModifier (getKeyInfo combination action?).key
         then [(getKeyInfo combination action?).key]
         else (getKeyInfo combination action?).modifiers)
        (getKeyInfo combination action?).modifiers = true := by
    rcases hdel with h | h
    · exact Or.inl ⟨h, rfl, rfl⟩
    · exact Or.inr h
  have h1 : callbacksAt (_bindSingle st combination cb1 action? none none)
        (getKeyInfo combination action?).key
      = callbacksAt st (getKeyInfo combination action?).key
        ++ [{ cb := cb1, modifiers := (getKeyInfo combination action?).modifiers,
              action := (getKeyInfo combination action?).action, seq := none,
              level := none, combo := combination }] := by
    unfold callbacksAt
    rw [bindSingle_plain_callbacks, lookup_upsert_self]
    simp only [Option.getD_some]
    unfold getMatches
    rw [matchKeep_keeps_nonmatching _ _ _ combination _ _ hfresh]
    rfl
  have h2 : callbacksAt
        (_bindSingle (_bindSingle st combination cb1 action? none none)
          combination cb2 action? none none)
        (getKeyInfo combination action?).key
      = callbacksAt st (getKeyInfo combination action?).key
        ++ [{ cb := cb2, modifiers := (getKeyInfo combination action?).modifiers,
              action := (getKeyInfo combination action?).action, seq := none,
              level := none, combo := combination }] := by
    unfold callbacksAt
    rw [bindSingle_plain_callbacks, lookup_upsert_self]
    simp only [Option.getD_some]
    unfold getMatches
    rw [h1]
    rw [matchKeep_removes_last _ _ _ combination _ _ rfl rfl rfl hmatch1 _ hfresh]
    rfl
  constructor
  · rw [h2, List.filter_append]
    rw [List.filter_eq_nil_iff.mpr (fun c hc => by simp [hfresh c hc])]
    simp [List.filter]
  · unfold trigger
    rw [bindSingle_directMap, lookup_upsert_self]

/-- C4 witness: rebinding the plain combination `x` (inferred keypress
action) on a fresh engine leaves exactly the new binding and `trigger`
resolves to the new callback. -/
theorem c4_rebind_replaces_works :
    (callbacksAt
        (_bindSingle (_bindSingle emptyEngine "x" 1 none none none)
          "x" 2 none none none)
        (getKeyInfo "x" none).key).filter
        (fun c => decide (c.combo = "x" ∧
            c.action = (getKeyInfo "x" none).action))
      = [{ cb := 2, modifiers := (getKeyInfo "x" none).modifiers,
           action := (getKeyInfo "x" none).action, seq := none,
           level := none, combo := "x" }] ∧
    trigger (_bindSingle (_bindSingle emptyEngine "x" 1 none none none)
        "x" 2 none none none) "x" none = some 2 :=
  c4_rebind_replaces emptyEngine "x" 1 2 none (by decide) (by decide)

/-! ## Parser lemmas shared by C6 and C9 -/

/-- The split never returns an empty token list. -/
theorem splitOnChar_ne_nil (sep : Char) (l : List Char) :
    splitOnChar sep l ≠ [] := by
  cases l with
  | nil => simp [splitOnChar]
  | cons c rest =>
    simp only [splitOnChar]
    cases h : splitOnChar sep rest with
    | nil => simp
    | cons t ts => split_ifs <;> simp

/-- `#keysFromString` never returns an empty token list. -/
theorem keysFromString_ne_nil (c : String) : keysFromString c ≠ [] := by
  unfold keysFromString
  split_ifs
  · simp
  · simp only [ne_eq, List.map_eq_nil_iff]
    exact splitOnChar_ne_nil _ _

/-- Without two consecutive plus signs the escape replacement is the
identity; in particular so for strings free of `'+'`. -/
theorem replacePlusPlus_no_plus (l : List Char) (h : '+' ∉ l) :
    replacePlusPlus l = l := by
  induction l with
  | nil => rfl
  | cons c rest ih =>
    cases rest with
    | nil => rfl
    | cons d rest2 =>
      have hc : c ≠ '+' := fun h1 => h (h1 ▸ List.mem_cons_self c (d :: rest2))
      simp only [replacePlusPlus]
      rw [if_neg (fun hcd => hc hcd.1)]
      rw [ih fun hm => h (List.mem_cons_of_mem c hm)]

/-- Splitting a separator-free string yields the single token. -/
theorem splitOnChar_no_sep (sep : Char) (l : List Char) (h : sep ∉ l) :
    splitOnChar sep l = [l] := by
  induction l with
  | nil => rfl
  | cons c rest ih =>
    have hc : c ≠ sep := fun h1 => h (h1 ▸ List.mem_cons_self c rest)
    simp [splitOnChar, ih fun hm => h (List.mem_cons_of_mem c hm), hc]

/-- A plus-free combination string is a single token. -/
theorem keysFromString_no_plus (tok : String) (h : '+' ∉ tok.toList) :
    keysFromString tok = [tok] := by
  unfold keysFromString
  rw [if_neg (fun he => h (by rw [he]; decide))]
  rw [replacePlusPlus_no_plus _ h, splitOnChar_no_sep _ _ h]
  rfl

/-- The values of the alias table. -/
theorem aliasValues (s v : String) (h : _SPECIAL_ALIASES s = some v) :
    v = "alt" ∨ v = "meta" ∨ v = "enter" ∨ v = "esc" ∨ v = "+" ∨ v = "ctrl" := by
  unfold _SPECIAL_ALIASES at h
  split_ifs at h <;> simp_all

/-- Alias values are nonempty. -/
theorem aliases_ne_empty (s v : String) (h : _SPECIAL_ALIASES s = some v) :
    v ≠ "" := by
  unfold _SPECIAL_ALIASES at h
  split_ifs at h <;> (injection h with h; subst h; decide)

/-- A successful association-list lookup returns one of the stored
values. -/
theorem lookup_value_mem (m : List (String × String)) (k v : String)
    (h : m.lookup k = some v) : v ∈ m.map Prod.snd := by
  induction m with
  | nil => exact absurd h (by simp [List.lookup])
  | cons p t ih =>
    obtain ⟨k', v'⟩ := p
    rw [List.lookup] at h
    cases hbeq : (k == k') with
    | true =>
      rw [hbeq] at h
      injection h with h
      simp [h]
    | false =>
      rw [hbeq] at h
      simp only [List.map, List.mem_cons]
      exact Or.inr (ih h)

/-- Shift-equivalence values are nonempty. -/
theorem shiftMap_ne_empty (s v : String) (h : _SHIFT_MAP s = some v) :
    v ≠ "" := by
  have hall : ∀ x ∈ _SHIFT_MAP_PAIRS.map Prod.snd, x ≠ "" := by decide
  exact hall v (lookup_value_mem _ s v h)

/-- Shift-equivalence values are never modifier names. -/
theorem shiftMap_not_modifier (s v : String) (h : _SHIFT_MAP s = some v) :
    isModifier v = false := by
  have hall : ∀ x ∈ _SHIFT_MAP_PAIRS.map Prod.snd, isModifier x = false := by
    decide
  exact hall v (lookup_value_mem _ s v h)

/-- The key a token resolves to, with the `let` chain of
`getKeyInfoToken` spelled out. -/
theorem tokenKey_eq (a : Option Action) (t : String) :
    (getKeyInfoToken a t []).1
      = (if shiftActionApplies a ∧ (_SHIFT_MAP ((_SPECIAL_ALIASES t).getD t)).isSome
         then (_SHIFT_MAP ((_SPECIAL_ALIASES t).getD t)).getD ((_SPECIAL_ALIASES t).getD t)
         else (_SPECIAL_ALIASES t).getD t) := rfl

/-- The modifier list a single token produces, spelled out. -/
theorem tokenMods_eq (a : Option Action) (t : String) :
    (getKeyInfoToken a t []).2
      = (if isModifier (getKeyInfoToken a t []).1
         then (if shiftActionApplies a ∧ (_SHIFT_MAP ((_SPECIAL_ALIASES t).getD t)).isSome
               then ([] : List String) ++ ["shift"] else [])
              ++ [(getKeyInfoToken a t []).1]
         else (if shiftActionApplies a ∧ (_SHIFT_MAP ((_SPECIAL_ALIASES t).getD t)).isSome
               then ([] : List String) ++ ["shift"] else [])) := rfl

/-- The key component of the resolution loop is decided by the last
token. -/
theorem getKeyInfoLoop_last_key (a : Option Action) :
    ∀ (ks : List String) (t k0 : String) (mods : List String),
      (getKeyInfoLoop a (ks ++ [t]) k0 mods).1 = (getKeyInfoToken a t []).1 := by
  intro ks
  induction ks with
  | nil => intro t k0 mods; rfl
  | cons k ks ih =>
    intro t k0 mods
    simp only [List.cons_append, getKeyInfoLoop]
    exact ih t _ _

/-- A nonempty token resolves to a nonempty key. -/
theorem tokenKey_ne_empty (a : Option Action) (t : String) (ht : t ≠ "") :
    (getKeyInfoToken a t []).1 ≠ "" := by
  have hk1 : (_SPECIAL_ALIASES t).getD t ≠ "" := by
    cases h : _SPECIAL_ALIASES t with
    | none => simpa using ht
    | some v => simpa using aliases_ne_empty t v h
  rw [tokenKey_eq]
  split_ifs with hc
  · obtain ⟨-, hs⟩ := hc
    obtain ⟨v, hv⟩ := Option.isSome_iff_exists.mp hs
    rw [hv]
    simpa using shiftMap_ne_empty _ v hv
  · exact hk1

/-! ## C6: the key-descriptor invariant -/

/-- C6 amended: for a combination string all of whose `+`-separated
tokens are nonempty, the canonical key is nonempty (empty tokens — an
empty combination or a trailing `+` — pass through as an empty key, see
the counterexample); and a single-token combination resolves to a
duplicate-free modifier list. -/
theorem c6_key_nonempty_and_dedup (combination : String)
    (action? : Option Action)
    (htok : ∀ t ∈ keysFromString combination, t ≠ "") :
    (getKeyInfo combination action?).key ≠ "" ∧
    ((keysFromString combination).length = 1 →
      (getKeyInfo combination action?).modifiers.Nodup) := by
  constructor
  · rcases List.eq_nil_or_concat (keysFromString combination) with hnil | ⟨ks, t, hks⟩
    · exact absurd hnil (keysFromString_ne_nil combination)
    · rw [List.concat_eq_append] at hks
      show (getKeyInfoLoop action? (keysFromString combination) "" []).1 ≠ ""
      rw [hks, getKeyInfoLoop_last_key]
      exact tokenKey_ne_empty action? t
        (htok t (by rw [hks]; exact List.mem_append_right _ (by simp)))
  · intro hlen
    obtain ⟨t, ht⟩ := List.length_eq_one.mp hlen
    show (getKeyInfoLoop action? (keysFromString combination) "" []).2.Nodup
    rw [ht]
    show (getKeyInfoToken action? t []).2.Nodup
    by_cases hmod : isModifier (getKeyInfoToken action? t []).1
    · by_cases hc : shiftActionApplies action? ∧
          (_SHIFT_MAP ((_SPECIAL_ALIASES t).getD t)).isSome
      · exfalso
        have hk2 : (getKeyInfoToken action? t []).1
            = (_SHIFT_MAP ((_SPECIAL_ALIASES t).getD t)).getD
                ((_SPECIAL_ALIASES t).getD t) := by
          rw [tokenKey_eq, if_pos hc]
        obtain ⟨-, hs⟩ := hc
        obtain ⟨v, hv⟩ := Option.isSome_iff_exists.mp hs
        rw [hv] at hk2
        simp only [Option.getD_some] at hk2
        have hnm := shiftMap_not_modifier _ v hv
        rw [hk2, hnm] at hmod
        exact Bool.false_ne_true hmod
      · rw [tokenMods_eq, if_pos hmod, if_neg hc]
        simp
    · rw [tokenMods_eq, if_neg hmod]
      split_ifs <;> simp

/-- C6 witness: the amended statement at the two-token combination
`ctrl+x` (nonempty key) and the single token `shift` (duplicate-free
modifiers). -/
theorem c6_key_nonempty_and_dedup_works :
    (getKeyInfo "ctrl+x" none).key ≠ "" ∧
    (getKeyInfo "shift" none).modifiers.Nodup :=
  ⟨(c6_key_nonempty_and_dedup "ctrl+x" none (by decide)).1,
   (c6_key_nonempty_and_dedup "shift" none (by decide)).2 (by decide)⟩

/-! ## C9: idempotent parsing of printable single tokens -/

/-- `#getKeyInfo` on a single token with no explicit action: the alias
resolves the key, the shift table is skipped (src 623 requires an
action), and the modifier list is the key itself when it is a modifier. -/
theorem getKeyInfo_single_token (tok : String)
    (h : keysFromString tok = [tok]) :
    getKeyInfo tok none
      = { key := (_SPECIAL_ALIASES tok).getD tok,
          modifiers := if isModifier ((_SPECIAL_ALIASES tok).getD tok)
                       then [(_SPECIAL_ALIASES tok).getD tok] else [],
          action := pickBestAction ((_SPECIAL_ALIASES tok).getD tok)
            (if isModifier ((_SPECIAL_ALIASES tok).getD tok)
             then [(_SPECIAL_ALIASES tok).getD tok] else []) none } := by
  unfold getKeyInfo
  rw [h]
  rfl

/-- C9: for a single space- and plus-free token whose parse yields the
character-capture (`keypress`) action, parsing is idempotent: feeding the
canonical key of the first parse back through `#getKeyInfo` reproduces
the same descriptor. -/
theorem c9_parse_idempotent (tok : String)
    (hplus : '+' ∉ tok.toList) (hspace : ' ' ∉ tok.toList)
    (hact : (getKeyInfo tok none).action = Action.keypress) :
    getKeyInfo ((getKeyInfo tok none).key) none = getKeyInfo tok none := by
  have h1 : keysFromString tok = [tok] := keysFromString_no_plus tok hplus
  rw [getKeyInfo_single_token tok h1] at hact ⊢
  set k1 := (_SPECIAL_ALIASES tok).getD tok with hk1
  replace hact : pickBestAction k1 (if isModifier k1 then [k1] else []) none
      = Action.keypress := hact
  have hrev : inReverseMap k1 = false := by
    cases hb : inReverseMap k1 with
    | false => rfl
    | true =>
      exfalso
      unfold pickBestAction at hact
      simp [hb] at hact
  have hM : (if isModifier k1 then [k1] else ([] : List String)) = [] := by
    cases hb : isModifier k1 with
    | false => simp [hb]
    | true =>
      exfalso
      unfold pickBestAction at hact
      simp [hrev, hb] at hact
  have hmod : isModifier k1 = false := by
    cases hb : isModifier k1 with
    | false => rfl
    | true => exfalso; rw [hb] at hM; simp at hM
  have hkv : keysFromString k1 = [k1] ∧ _SPECIAL_ALIASES k1 = none := by
    cases halias : _SPECIAL_ALIASES tok with
    | none =>
      have heq : k1 = tok := by rw [hk1, halias]; rfl
      rw [heq]
      exact ⟨h1, halias⟩
    | some v =>
      have hkv1 : k1 = v := by rw [hk1, halias]; rfl
      have hv := aliasValues tok v halias
      rw [hkv1]
      rcases hv with rfl | rfl | rfl | rfl | rfl | rfl <;>
        exact ⟨by decide, by decide⟩
  show getKeyInfo k1 none = _
  rw [getKeyInfo_single_token k1 hkv.1]
  simp only [hkv.2, Option.getD_none]

/-- C9 witness: the token `z` parses to a keypress descriptor and the
parse of its canonical key reproduces it. -/
theorem c9_parse_idempotent_works :
    getKeyInfo ((getKeyInfo "z" none).key) none = getKeyInfo "z" none :=
  c9_parse_idempotent "z" (by decide) (by decide) (by decide)

/-! ## C7: the dispatch gate of `#handleKeyEvent` -/

/-- C7: a dispatched event is dropped exactly when no canonical character
resolves or it is a keyup whose character is `===`-equal to the
suppressed one (src 354, 357); in the latter case the flag is cleared
(src 358), a dropped event fires nothing, and a keyup of numeric-keypad
digit 0 (code 96) resolves to the *string* `"0"` (src 55-58) and fires
its bound callback — the truthiness test of src 354 does not drop it and
the `===` of src 357 does not confuse it with the unset (`false`)
flag. -/
theorem c7_event_gate :
    (∀ (st : Engine) (e : KeyEvent),
      ((handleKeyEvent st e).2 = none ↔
        characterFromEvent e = "" ∨
          (e.type = Action.keyup ∧
            st._ignoreNextKeyup = some (characterFromEvent e))) ∧
      ((handleKeyEvent st e).2 = none → dispatchFired st e = []) ∧
      (characterFromEvent e ≠ "" → e.type = Action.keyup →
        st._ignoreNextKeyup = some (characterFromEvent e) →
        ((handleKeyEvent st e).1)._ignoreNextKeyup = none)) ∧
    characterFromEvent numpadZeroKeyup = "0" ∧
    dispatchFired numpadZeroState numpadZeroKeyup = [numpadZeroBinding] := by
  refine ⟨?_, rfl, by decide⟩
  intro st e
  refine ⟨?_, ?_, ?_⟩
  · unfold handleKeyEvent
    by_cases h1 : characterFromEvent e = ""
    · rw [if_pos h1]
      simp [h1]
    · rw [if_neg h1]
      by_cases h2 : e.type = Action.keyup ∧
          st._ignoreNextKeyup = some (characterFromEvent e)
      · rw [if_pos h2]
        exact iff_of_true rfl (Or.inr h2)
      · rw [if_neg h2]
        exact iff_of_false (by simp) (fun hor => hor.elim h1 h2)
  · intro h
    rcases hev : handleKeyEvent st e with ⟨st', o⟩
    rw [hev] at h
    cases o with
    | none =>
      unfold dispatchFired
      rw [hev]
    | some pr => simp at h
  · intro hch hty hig
    unfold handleKeyEvent
    rw [if_neg hch, if_pos ⟨hty, hig⟩]

/-- C7 witness: a keyup of `X` while the flag suppresses `x` is dropped
with the flag cleared. -/
theorem c7_event_gate_works :
    ((handleKeyEvent suppressDemoState suppressDemoEvent).1)._ignoreNextKeyup
      = none :=
  (c7_event_gate.1 suppressDemoState suppressDemoEvent).2.2
    (by decide) (by decide) (by decide)

/-! ## C8: the default suppression policy and pause/unpause -/

/-- C8: `stopCallback` (src 85-94) suppresses everything while the engine
is paused; otherwise an element carrying the `mousetrap` class is never
suppressed; otherwise suppression is exactly content-editability.
Consequently after `pause()` no dispatch invokes any callback, and
`unpause()` after `pause()` restores the engine state exactly. -/
theorem c8_stop_policy :
    (∀ (st : Engine) (el : Element),
      (st.mouseTrapEnabled = false → stopCallback st el = true) ∧
      (st.mouseTrapEnabled = true → hasMousetrapClass el.className = true →
        stopCallback st el = false) ∧
      (st.mouseTrapEnabled = true → hasMousetrapClass el.className = false →
        (stopCallback st el = true ↔ el.contentEditable = "true"))) ∧
    (∀ (st : Engine) (e : KeyEvent), dispatchInvoked (pause st) e = []) ∧
    (∀ st : Engine, st.mouseTrapEnabled = true → unpause (pause st) = st) := by
  refine ⟨?_, ?_, ?_⟩
  · intro st el
    refine ⟨?_, ?_, ?_⟩
    · intro h
      unfold stopCallback
      rw [if_pos h]
    · intro h hm
      unfold stopCallback
      rw [if_neg (by simp [h]), if_pos hm]
    · intro h hm
      unfold stopCallback
      rw [if_neg (by simp [h]), if_neg (by simp [hm])]
      simp
  · intro st e
    have hstop : stopCallback (pause st) e.target = true := by
      unfold stopCallback pause
      rw [if_pos rfl]
    unfold dispatchInvoked
    rw [if_pos hstop]
  · intro st h
    cases st
    simp_all [pause, unpause]

/-- C8 witness: while paused, even a content-editable element outside the
`mousetrap` class is suppressed. -/
theorem c8_stop_policy_works :
    stopCallback (pause emptyEngine) demoElement = true :=
  (c8_stop_policy.1 (pause emptyEngine) demoElement).1 rfl

end Mousetrap
